import Mathlib

/-!
Shallow embedding of the chat server in `cmd/server/server.go`.

Connections (`net.Conn`) are modelled as natural-number handles.  The two
global Go maps `clients` and `addr`, the `tasks` map and the `taskIDCounter`
become an explicit `ServerState`; `history.log` is modelled as the string
contents of the file.  Socket writes performed by a handler are collected as
a list of `(recipient, bytes)` pairs in the order the code issues them.
Go map iteration order is unspecified; the association lists fix one order.
-/

namespace ChatServer

/-- Connection handle standing in for a `net.Conn` value. -/
abbrev Conn := Nat

/-- Go's `unicode.IsSpace`, the character class trimmed by `strings.TrimSpace`. -/
def goIsSpace (c : Char) : Bool :=
  c = ' ' || c = '\t' || c = '\n' || c = '\x0b' || c = '\x0c' || c = '\r' ||
  c = '\u0085' || c = '\u00A0' || c = '\u1680' ||
  ('\u2000' ≤ c && c ≤ '\u200A') ||
  c = '\u2028' || c = '\u2029' || c = '\u202F' || c = '\u205F' || c = '\u3000'

/-- `strings.TrimSpace`: drop leading and trailing white space. -/
def goTrimSpace (s : String) : String :=
  String.mk (((s.data.dropWhile goIsSpace).reverse.dropWhile goIsSpace).reverse)

/-- `strings.HasPrefix s pre` (first argument here is the prefix tested). -/
def strStartsWith (pre s : String) : Bool :=
  pre.data.isPrefixOf s.data

/-- Split a character list at its first space: `some (before, after)` or `none`. -/
def breakSpace : List Char → Option (List Char × List Char)
  | [] => none
  | c :: cs =>
    if c = ' ' then some ([], cs)
    else
      match breakSpace cs with
      | none => none
      | some (a, b) => some (c :: a, b)

/-- `strings.SplitN s " " n` on character lists: at most `n` pieces, the last
piece is the unsplit remainder; `n = 0` gives the empty list as in Go. -/
def splitNChars : Nat → List Char → List (List Char)
  | 0, _ => []
  | 1, cs => [cs]
  | Nat.succ (Nat.succ n), cs =>
    match breakSpace cs with
    | none => [cs]
    | some (a, b) => a :: splitNChars (Nat.succ n) b

/-- `strings.SplitN message " " n` as used by the dispatcher. -/
def goSplitNSpace (s : String) (n : Nat) : List String :=
  (splitNChars n s.data).map String.mk

/-- `strings.Join` (Go semantics: empty list gives the empty string). -/
def goJoin (sep : String) : List String → String
  | [] => ""
  | [x] => x
  | x :: y :: xs => x ++ sep ++ goJoin sep (y :: xs)

/-- `bufio.Scanner` with `ScanLines` over file contents: the tokens are the
newline-separated lines, without their terminators; a final unterminated
line is still emitted, and an empty trailing remainder is not. -/
def splitLines : List Char → List (List Char)
  | [] => []
  | c :: cs =>
    if c = '\n' then [] :: splitLines cs
    else
      match splitLines cs with
      | [] => [[c]]
      | l :: ls => (c :: l) :: ls

/-- One record of the `tasks` map. -/
structure Task where
  id : String
  description : String
  owner : String
deriving DecidableEq, Repr

/-- Two's-complement wrap-around of Go's 64-bit `int`: the result always
lies in `[-2^63, 2^63)`, and `taskIDCounter++` at the top of the range wraps
to `-2^63` (signed overflow is defined, wrapping behaviour in Go).  The
numerals are `2^63` and `2^64`. -/
def wrap64 (n : Int) : Int :=
  (n + 9223372036854775808) % 18446744073709551616 - 9223372036854775808

/-- The server's shared mutable state: the `clients` and `addr` maps keyed by
connection, the `tasks` map keyed by task id, the id counter (a 64-bit Go
`int`, kept wrapped into `[-2^63, 2^63)` by `addTask`), and the contents of
`history.log`. -/
structure ServerState where
  clients : List (Conn × String)
  addr : List (Conn × String)
  tasks : List (String × Task)
  taskIDCounter : Int
  histFile : String
deriving DecidableEq, Repr

/-- The boot values of the package-level variables: empty maps, counter 0,
no history yet. -/
def initialState : ServerState :=
  { clients := [], addr := [], tasks := [], taskIDCounter := 0, histFile := "" }

/-- Go map assignment `m[k] = v` on an association list. -/
def setAssoc (k : Conn) (v : String) (l : List (Conn × String)) :
    List (Conn × String) :=
  if l.any (fun p => p.1 = k) then
    l.map (fun p => if p.1 = k then (k, v) else p)
  else l ++ [(k, v)]

/-- Go map lookup `m[k]` on an association list. -/
def lookupAssoc (k : Conn) (l : List (Conn × String)) : Option String :=
  (l.find? (fun p => p.1 = k)).map Prod.snd

/-- Membership of a connection in the `clients` map. -/
def registered (k : Conn) (l : List (Conn × String)) : Bool :=
  l.any (fun p => p.1 = k)

/-- Go map assignment for the `tasks` map. -/
def setTaskAssoc (k : String) (v : Task) (l : List (String × Task)) :
    List (String × Task) :=
  if l.any (fun p => p.1 = k) then
    l.map (fun p => if p.1 = k then (k, v) else p)
  else l ++ [(k, v)]

/-- `broadcastMessage`: write `message` to every connection in `clients`
except `sender`.  Returns the write events in iteration order. -/
def broadcastMessage (message : String) (sender : Conn)
    (clients : List (Conn × String)) : List (Conn × String) :=
  (clients.filter (fun p => p.1 ≠ sender)).map (fun p => (p.1, message))

/-- The client-visible form of a chat message, `fmt.Sprintf("%s: %s\n", ...)`. -/
def chatLine (nickname message : String) : String :=
  nickname ++ ": " ++ message ++ "\n"

/-- The history entry written by `logMessage`:
`fmt.Sprintf("%s: %s - %s\n", currentTime, nickname, message)`. -/
def logEntry (ts nickname message : String) : String :=
  ts ++ ": " ++ nickname ++ " - " ++ message ++ "\n"

/-- `logMessage`: append one formatted entry to the log file.  The result of
`WriteString` is discarded by the code, so a failed write (`writeOk = false`)
leaves the file unchanged and produces no operator log line either way. -/
def logMessage (ts nickname message : String) (fileContents : String)
    (writeOk : Bool) : String :=
  if writeOk then fileContents ++ logEntry ts nickname message else fileContents

/-- `sendHistory` (success path): stream every scanned line of the history
file back to `conn`, re-appending the newline, in file order. -/
def sendHistory (conn : Conn) (contents : String) : List (Conn × String) :=
  (splitLines contents.data).map (fun l => (conn, String.mk l ++ "\n"))

/-- `sendUsersList`: collect all nicknames of `clients` and reply to `conn`. -/
def sendUsersList (conn : Conn) (clients : List (Conn × String)) :
    List (Conn × String) :=
  let users := clients.foldl (fun acc p => acc ++ [p.2]) []
  [(conn, "Connected users: " ++ goJoin ", " users ++ "\n")]

/-- Result of one dispatcher invocation: the new shared state, the socket
writes in order, the new value of the handler's `nickname` local, and
whether `conn.Close()` was called. -/
structure StepResult where
  state : ServerState
  writes : List (Conn × String)
  nick : String
  closed : Bool
deriving Repr

/-- `changeNickname`: update the `nickname` local and `clients[conn]`,
acknowledge to the requester, then broadcast a change notice (the broadcast
iterates the already-updated registry). -/
def changeNickname (conn : Conn) (nickname newNickname : String)
    (st : ServerState) : StepResult :=
  let clients' := setAssoc conn newNickname st.clients
  { state := { st with clients := clients' }
    writes := (conn, "Nickname changed to " ++ newNickname ++ "\n") ::
      broadcastMessage
        ("'" ++ nickname ++ "' changed nickname to '" ++ newNickname ++ "'\n")
        conn clients'
    nick := newNickname
    closed := false }

/-- `addTask`: increment the id counter (`taskIDCounter++` on a 64-bit Go
`int`, so it wraps on overflow), render it with `%d`, insert the task, and
acknowledge with the assigned id. -/
def addTask (conn : Conn) (owner description : String) (st : ServerState) :
    ServerState × List (Conn × String) :=
  let counter' := wrap64 (st.taskIDCounter + 1)
  let taskID := toString counter'
  ({ st with
      taskIDCounter := counter'
      tasks := setTaskAssoc taskID ⟨taskID, description, owner⟩ st.tasks },
   [(conn, "Task added with ID " ++ taskID ++ "\n")])

/-- The per-task summary built by `listTasks`. -/
def taskSummary (t : Task) : String :=
  "ID: " ++ t.id ++ ", Owner: " ++ t.owner ++ ", Description: " ++ t.description

/-- `listTasks`: reply with the joined summaries, or "No tasks found." when
the collected list is empty. -/
def listTasks (conn : Conn) (tasks : List (String × Task)) :
    List (Conn × String) :=
  let taskDescriptions :=
    tasks.foldl (fun acc p => acc ++ [taskSummary p.2]) []
  if taskDescriptions.length = 0 then
    [(conn, "No tasks found.\n")]
  else
    [(conn, goJoin "; " taskDescriptions ++ "\n")]

/-- `deleteTask`: remove the task when present and acknowledge either way. -/
def deleteTask (conn : Conn) (taskID : String) (st : ServerState) :
    ServerState × List (Conn × String) :=
  if st.tasks.any (fun p => p.1 = taskID) then
    ({ st with tasks := st.tasks.filter (fun p => ¬(p.1 = taskID)) },
     [(conn, "Task deleted successfully.\n")])
  else
    (st, [(conn, "Task not found.\n")])

/-- The command each trimmed line is dispatched to. -/
inductive Cmd where
  | quit | history | nickname | users | taskAdd | taskList | taskDelete | chat
deriving DecidableEq, Repr

/-- The `if`/`else if` prefix chain of `handleCommands`, in source order. -/
def dispatchedCmd (message : String) : Cmd :=
  if strStartsWith "/quit" message then .quit
  else if strStartsWith "/history" message then .history
  else if strStartsWith "/nickname" message then .nickname
  else if strStartsWith "/users" message then .users
  else if strStartsWith "/task add" message then .taskAdd
  else if strStartsWith "/task list" message then .taskList
  else if strStartsWith "/task delete" message then .taskDelete
  else .chat

/-- `handleCommands`: dispatch one (already trimmed) line.  `ts` is the
timestamp `time.Now().Format(time.RFC1123)` a chat branch would record;
`writeOk` is whether the ignored `WriteString` of `logMessage` succeeds. -/
def handleCommands (conn : Conn) (nickname message ts : String)
    (writeOk : Bool) (st : ServerState) : StepResult :=
  match dispatchedCmd message with
  | .quit => { state := st, writes := [(conn, "Goodbye!\n")],
               nick := nickname, closed := true }
  | .history => { state := st, writes := sendHistory conn st.histFile,
                  nick := nickname, closed := false }
  | .nickname =>
    match goSplitNSpace message 2 with
    | [_, arg] => changeNickname conn nickname arg st
    | _ => { state := st, writes := [], nick := nickname, closed := false }
  | .users => { state := st, writes := sendUsersList conn st.clients,
                nick := nickname, closed := false }
  | .taskAdd =>
    match goSplitNSpace message 3 with
    | [_, _, description] =>
      let r := addTask conn nickname description st
      { state := r.1, writes := r.2, nick := nickname, closed := false }
    | _ => { state := st, writes := [], nick := nickname, closed := false }
  | .taskList => { state := st, writes := listTasks conn st.tasks,
                   nick := nickname, closed := false }
  | .taskDelete =>
    match goSplitNSpace message 3 with
    | [_, _, taskID] =>
      let r := deleteTask conn taskID st
      { state := r.1, writes := r.2, nick := nickname, closed := false }
    | _ => { state := st, writes := [], nick := nickname, closed := false }
  | .chat =>
    { state := { st with
        histFile := logMessage ts nickname message st.histFile writeOk }
      writes := broadcastMessage (chatLine nickname message) conn st.clients
      nick := nickname
      closed := false }

/-- The registration prologue of `handleConnection`: `nickname` starts as
"Anonymous" and the connection is inserted into `clients` and `addr`. -/
def registerSession (conn : Conn) (remote : String) (st : ServerState) :
    String × ServerState :=
  ("Anonymous",
   { st with
      clients := setAssoc conn "Anonymous" st.clients
      addr := setAssoc conn remote st.addr })

/-- The history-log open step of `handleConnection`.  On failure the error is
printed to the operator log and the handler returns at once (the deferred
block then deregisters the connection); on success the read loop is entered.
Result: (operator log lines, whether the session enters the read loop). -/
def handleConnSetup (openErr : Option String) : List String × Bool :=
  match openErr with
  | some e => (["Error opening history log file: " ++ e], false)
  | none => ([], true)

/-- One raw line received by the read loop, with the ambient timestamp a chat
dispatch would use and whether the history append would succeed. -/
structure LineInput where
  ts : String
  raw : String
  writeOk : Bool

/-- The read loop of `handleConnection`: each received line is trimmed with
`strings.TrimSpace` and dispatched; after `/quit` closes the connection the
next read fails and the loop exits. -/
def runSession (conn : Conn) : List LineInput → String → ServerState →
    String × ServerState
  | [], nickname, st => (nickname, st)
  | i :: rest, nickname, st =>
    if (handleCommands conn nickname (goTrimSpace i.raw) i.ts i.writeOk st).closed then
      ((handleCommands conn nickname (goTrimSpace i.raw) i.ts i.writeOk st).nick,
       (handleCommands conn nickname (goTrimSpace i.raw) i.ts i.writeOk st).state)
    else
      runSession conn rest
        (handleCommands conn nickname (goTrimSpace i.raw) i.ts i.writeOk st).nick
        (handleCommands conn nickname (goTrimSpace i.raw) i.ts i.writeOk st).state

/-- The seven command prefixes recognized by `handleCommands`, in the order
the `if` chain tests them. -/
def cmdPrefixes : List String :=
  ["/quit", "/history", "/nickname", "/users", "/task add", "/task list",
   "/task delete"]

/-- A line is a chat message when no recognized command prefix matches it. -/
def isChatMessage (m : String) : Bool :=
  !(cmdPrefixes.any (fun p => strStartsWith p m))

/-- The command a recognized prefix selects. -/
def cmdOfPrefix (p : String) : Cmd :=
  if p = "/quit" then .quit
  else if p = "/history" then .history
  else if p = "/nickname" then .nickname
  else if p = "/users" then .users
  else if p = "/task add" then .taskAdd
  else if p = "/task list" then .taskList
  else if p = "/task delete" then .taskDelete
  else .chat

/-- The format the specification's History Store contract describes: a bare
space between the timestamp and the nickname. -/
def claimedLogEntry (ts nickname message : String) : String :=
  ts ++ " " ++ nickname ++ " - " ++ message ++ "\n"

/-- The file contents stop at a line boundary: empty, or final char `'\n'`.
Holds for `history.log`, which is created empty and only ever extended by
whole `logEntry` lines. -/
abbrev endsWithNewline (cs : List Char) : Prop :=
  cs = [] ∨ cs.getLast? = some '\n'

/-- A line with a recognized prefix whose argument count check fails:
`/nickname` without a second `SplitN` part, `/task add` or `/task delete`
without a third. -/
def malformedCommand (m : String) : Bool :=
  (strStartsWith "/nickname" m && (goSplitNSpace m 2).length != 2) ||
  (strStartsWith "/task add" m && (goSplitNSpace m 3).length != 3) ||
  (strStartsWith "/task delete" m && (goSplitNSpace m 3).length != 3)

/-- One task-ledger operation, as issued by `/task add` / `/task delete`. -/
inductive TaskOp where
  | add (owner description : String)
  | del (taskID : String)

/-- Run a sequence of ledger operations through `addTask` / `deleteTask`,
collecting the numeric value of each assigned id (the code's string id is
its decimal rendering). -/
def applyTaskOps : List TaskOp → ServerState → ServerState × List Int
  | [], st => (st, [])
  | TaskOp.add o d :: rest, st =>
    let st' := (addTask 0 o d st).1
    let r := applyTaskOps rest st'
    (r.1, st'.taskIDCounter :: r.2)
  | TaskOp.del tid :: rest, st =>
    applyTaskOps rest (deleteTask 0 tid st).1

/-- The number of `/task add` operations in a sequence. -/
def countAdds : List TaskOp → Nat
  | [] => 0
  | TaskOp.add _ _ :: rest => countAdds rest + 1
  | TaskOp.del _ :: rest => countAdds rest

/-- A sequence of chat appends: each element is
(timestamp, nickname, message), written with a succeeding `WriteString`. -/
def appendChatEntries : String → List (String × String × String) → String
  | f, [] => f
  | f, e :: rest => appendChatEntries (logMessage e.1 e.2.1 e.2.2 f true) rest

section Lemmas

/-- If `m` starts with `p`, and `p` and `q` are not prefixes of one
another, then `m` does not start with `q`. -/
theorem not_startsWith_of_incomp (p q m : String)
    (hp : strStartsWith p m = true)
    (h1 : strStartsWith q p = false) (h2 : strStartsWith p q = false) :
    strStartsWith q m = false := by
  unfold strStartsWith at *
  rw [List.isPrefixOf_iff_prefix] at hp
  by_contra hq
  rw [Bool.not_eq_false, List.isPrefixOf_iff_prefix] at hq
  rcases List.prefix_or_prefix_of_prefix hq hp with h | h
  · rw [← List.isPrefixOf_iff_prefix] at h
    rw [h] at h1
    exact Bool.true_eq_false.mp h1
  · rw [← List.isPrefixOf_iff_prefix] at h
    rw [h] at h2
    exact Bool.true_eq_false.mp h2

theorem foldl_append_eq_map {α β : Type} (f : α → β) :
    ∀ (l : List α) (acc : List β),
      l.foldl (fun a x => a ++ [f x]) acc = acc ++ l.map f := by
  intro l
  induction l with
  | nil => simp
  | cons x xs ih => intro acc; simp [List.foldl_cons, ih]

theorem setAssoc_keyfun (k : Conn) (v : String) (q : Conn × String) :
    ((if q.1 = k then (k, v) else q) : Conn × String).1 = q.1 := by
  by_cases hq : q.1 = k <;> simp [hq]

theorem lookupAssoc_setAssoc_self (k : Conn) (v : String)
    (l : List (Conn × String)) : lookupAssoc k (setAssoc k v l) = some v := by
  unfold lookupAssoc setAssoc
  by_cases h : l.any (fun p => p.1 = k)
  · rw [if_pos h, List.find?_map]
    have hpf : ((fun p : Conn × String => decide (p.1 = k)) ∘
        (fun p => if p.1 = k then (k, v) else p)) =
        (fun p : Conn × String => decide (p.1 = k)) := by
      funext q
      simp [Function.comp, setAssoc_keyfun k v q]
    rw [hpf]
    rw [List.any_eq_true] at h
    obtain ⟨x, hx, hpx⟩ := h
    have hs : (List.find? (fun p : Conn × String => decide (p.1 = k)) l).isSome := by
      rw [List.find?_isSome]; exact ⟨x, hx, hpx⟩
    obtain ⟨e, he⟩ := Option.isSome_iff_exists.mp hs
    have hek : e.1 = k := by simpa using List.find?_some he
    rw [he]
    simp [hek]
  · rw [if_neg h, List.find?_append]
    have hnone : List.find? (fun p : Conn × String => decide (p.1 = k)) l = none := by
      rw [List.find?_eq_none]
      intro x hx
      rw [Bool.not_eq_true, List.any_eq_false] at h
      exact h x hx
    rw [hnone, Option.none_or]
    simp [List.find?]

theorem lookupAssoc_setAssoc_ne (k c : Conn) (v : String) (hne : c ≠ k)
    (l : List (Conn × String)) :
    lookupAssoc c (setAssoc k v l) = lookupAssoc c l := by
  unfold lookupAssoc setAssoc
  by_cases h : l.any (fun p => p.1 = k)
  · rw [if_pos h, List.find?_map]
    have hpf : ((fun p : Conn × String => decide (p.1 = c)) ∘
        (fun p => if p.1 = k then (k, v) else p)) =
        (fun p : Conn × String => decide (p.1 = c)) := by
      funext q
      simp [Function.comp, setAssoc_keyfun k v q]
    rw [hpf]
    cases he : List.find? (fun p : Conn × String => decide (p.1 = c)) l with
    | none => simp
    | some e =>
      have hec : e.1 = c := by simpa using List.find?_some he
      have : e.1 ≠ k := hec ▸ hne
      simp [this]
  · rw [if_neg h, List.find?_append]
    have hlast : List.find? (fun p : Conn × String => decide (p.1 = c)) [(k, v)] = none := by
      simp [List.find?, Ne.symm hne]
    rw [hlast, Option.or_none]

theorem registered_setAssoc_of_registered (k : Conn) (v : String)
    (l : List (Conn × String)) (h : registered k l = true) (c : Conn) :
    registered c (setAssoc k v l) = registered c l := by
  unfold registered at *
  unfold setAssoc
  rw [if_pos h, List.any_map]
  have hpf : ((fun p : Conn × String => decide (p.1 = c)) ∘
      (fun p => if p.1 = k then (k, v) else p)) =
      (fun p : Conn × String => decide (p.1 = c)) := by
    funext q
    simp [Function.comp, setAssoc_keyfun k v q]
  rw [hpf]

end Lemmas

/-- C9: A `/task list` request replies with exactly "No tasks found.\n" when
the ledger is empty, and otherwise with a single line joining one
"ID: .., Owner: .., Description: .." summary per task with "; " separators. -/
theorem task_list_reply (conn : Conn) (tasks : List (String × Task)) :
    listTasks conn tasks =
      if tasks = [] then [(conn, "No tasks found.\n")]
      else [(conn, goJoin "; " (tasks.map (fun p => taskSummary p.2)) ++ "\n")] := by
  unfold listTasks
  rw [foldl_append_eq_map, List.nil_append]
  cases tasks with
  | nil => simp
  | cons p t => simp

/-- C10: a nickname change for a registered connection mutates only that
connection's registry entry: every other connection's nickname is unchanged,
the `addr` map is untouched, the set of registered connections is unchanged,
and so are the task ledger and the history file. -/
theorem nickname_change_frame (conn : Conn) (nickname newNickname : String)
    (st : ServerState) (hreg : registered conn st.clients = true) :
    (∀ c, c ≠ conn →
        lookupAssoc c (changeNickname conn nickname newNickname st).state.clients
          = lookupAssoc c st.clients)
    ∧ (changeNickname conn nickname newNickname st).state.addr = st.addr
    ∧ (∀ c, registered c (changeNickname conn nickname newNickname st).state.clients
          = registered c st.clients)
    ∧ (changeNickname conn nickname newNickname st).state.tasks = st.tasks
    ∧ (changeNickname conn nickname newNickname st).state.histFile = st.histFile := by
  refine ⟨?_, rfl, ?_, rfl, rfl⟩
  · intro c hc
    exact lookupAssoc_setAssoc_ne conn c newNickname hc st.clients
  · intro c
    exact registered_setAssoc_of_registered conn newNickname st.clients hreg c

/-- Witness for C10 at a concrete two-client registry. -/
theorem nickname_change_frame_witness :
    (∀ c, c ≠ 0 →
        lookupAssoc c (changeNickname 0 "Anonymous" "Alice"
            ⟨[(0, "Anonymous"), (1, "Bob")], [(0, "a:1"), (1, "b:2")], [], 0, ""⟩).state.clients
          = lookupAssoc c [(0, "Anonymous"), (1, "Bob")])
    ∧ (changeNickname 0 "Anonymous" "Alice"
        ⟨[(0, "Anonymous"), (1, "Bob")], [(0, "a:1"), (1, "b:2")], [], 0, ""⟩).state.addr
        = [(0, "a:1"), (1, "b:2")]
    ∧ (∀ c, registered c (changeNickname 0 "Anonymous" "Alice"
          ⟨[(0, "Anonymous"), (1, "Bob")], [(0, "a:1"), (1, "b:2")], [], 0, ""⟩).state.clients
        = registered c [(0, "Anonymous"), (1, "Bob")])
    ∧ (changeNickname 0 "Anonymous" "Alice"
        ⟨[(0, "Anonymous"), (1, "Bob")], [(0, "a:1"), (1, "b:2")], [], 0, ""⟩).state.tasks = []
    ∧ (changeNickname 0 "Anonymous" "Alice"
        ⟨[(0, "Anonymous"), (1, "Bob")], [(0, "a:1"), (1, "b:2")], [], 0, ""⟩).state.histFile = "" :=
  nickname_change_frame 0 "Anonymous" "Alice"
    ⟨[(0, "Anonymous"), (1, "Bob")], [(0, "a:1"), (1, "b:2")], [], 0, ""⟩ (by decide)

/-- C2 counterexample: when opening the history log fails, `handleConnection`
returns before entering the read loop, so the session is terminated (its
deferred cleanup deregisters the connection) — the claim that an open failure
does not terminate the session is false. -/
theorem history_open_failure_terminates :
    (handleConnSetup (some "permission denied")).2 = false := rfl

/-- C2 amended: a failure to open the history log is logged to the operator
and terminates the session; a failed history append is silently discarded
(no operator log either) and the dispatcher's visible behaviour — socket
writes, close flag, nickname, registry and task ledger — is identical to a
successful append, so chat continues. -/
theorem persistence_error_handling :
    (∀ e, handleConnSetup (some e) =
        (["Error opening history log file: " ++ e], false))
    ∧ (∀ (conn : Conn) (nickname m ts : String) (st : ServerState),
        (handleCommands conn nickname m ts false st).writes
            = (handleCommands conn nickname m ts true st).writes
        ∧ (handleCommands conn nickname m ts false st).closed
            = (handleCommands conn nickname m ts true st).closed
        ∧ (handleCommands conn nickname m ts false st).nick
            = (handleCommands conn nickname m ts true st).nick
        ∧ (handleCommands conn nickname m ts false st).state.clients
            = (handleCommands conn nickname m ts true st).state.clients
        ∧ (handleCommands conn nickname m ts false st).state.tasks
            = (handleCommands conn nickname m ts true st).state.tasks) := by
  refine ⟨fun e => rfl, fun conn nickname m ts st => ?_⟩
  unfold handleCommands
  cases dispatchedCmd m with
  | nickname => cases goSplitNSpace m 2 with
    | nil => exact ⟨rfl, rfl, rfl, rfl, rfl⟩
    | cons a t => cases t with
      | nil => exact ⟨rfl, rfl, rfl, rfl, rfl⟩
      | cons b t2 => cases t2 with
        | nil => exact ⟨rfl, rfl, rfl, rfl, rfl⟩
        | cons c t3 => exact ⟨rfl, rfl, rfl, rfl, rfl⟩
  | taskAdd => cases h : goSplitNSpace m 3 with
    | nil => exact ⟨rfl, rfl, rfl, rfl, rfl⟩
    | cons a t => cases t with
      | nil => exact ⟨rfl, rfl, rfl, rfl, rfl⟩
      | cons b t2 => cases t2 with
        | nil => exact ⟨rfl, rfl, rfl, rfl, rfl⟩
        | cons c t3 => cases t3 with
          | nil => exact ⟨rfl, rfl, rfl, rfl, rfl⟩
          | cons d t4 => exact ⟨rfl, rfl, rfl, rfl, rfl⟩
  | taskDelete => cases h : goSplitNSpace m 3 with
    | nil => exact ⟨rfl, rfl, rfl, rfl, rfl⟩
    | cons a t => cases t with
      | nil => exact ⟨rfl, rfl, rfl, rfl, rfl⟩
      | cons b t2 => cases t2 with
        | nil => exact ⟨rfl, rfl, rfl, rfl, rfl⟩
        | cons c t3 => cases t3 with
          | nil => exact ⟨rfl, rfl, rfl, rfl, rfl⟩
          | cons d t4 => exact ⟨rfl, rfl, rfl, rfl, rfl⟩
  | quit => exact ⟨rfl, rfl, rfl, rfl, rfl⟩
  | history => exact ⟨rfl, rfl, rfl, rfl, rfl⟩
  | users => exact ⟨rfl, rfl, rfl, rfl, rfl⟩
  | taskList => exact ⟨rfl, rfl, rfl, rfl, rfl⟩
  | chat => exact ⟨rfl, rfl, rfl, rfl, rfl⟩

/-- C3 counterexample: the bytes `logMessage` appends use a colon between the
timestamp and the nickname, not the bare space the claim describes. -/
theorem history_entry_format_counterexample :
    logMessage "Mon, 02 Jan 2006 15:04:05 MST" "Alice" "hi" "" true ≠
      "" ++ claimedLogEntry "Mon, 02 Jan 2006 15:04:05 MST" "Alice" "hi" := by
  decide

theorem string_data_ext {a b : String} (h : a.data = b.data) : a = b := by
  cases a; cases b; exact congrArg String.mk h

theorem splitLines_cons (c : Char) (cs : List Char) :
    splitLines (c :: cs) =
      if c = '\n' then [] :: splitLines cs
      else
        match splitLines cs with
        | [] => [[c]]
        | l :: ls => (c :: l) :: ls := rfl

theorem splitLines_ne_nil : ∀ cs : List Char, cs ≠ [] → splitLines cs ≠ [] := by
  intro cs h
  cases cs with
  | nil => exact absurd rfl h
  | cons c t =>
    rw [splitLines_cons]
    by_cases hc : c = '\n'
    · simp [hc]
    · simp only [if_neg hc]
      cases splitLines t with
      | nil => simp
      | cons l ls => simp

theorem splitLines_nl (cs : List Char) :
    splitLines ('\n' :: cs) = [] :: splitLines cs := by
  rw [splitLines_cons]; simp

theorem splitLines_not_nl {c : Char} (hc : ¬c = '\n') (cs : List Char) :
    splitLines (c :: cs) =
      match splitLines cs with
      | [] => [[c]]
      | l :: ls => (c :: l) :: ls := by
  rw [splitLines_cons, if_neg hc]

theorem splitLines_append : ∀ xs : List Char, endsWithNewline xs → ∀ ys,
    splitLines (xs ++ ys) = splitLines xs ++ splitLines ys := by
  intro xs
  induction xs with
  | nil => intro _ ys; simp [splitLines]
  | cons c cs ih =>
    intro h ys
    rcases h with h | h
    · exact absurd h (by simp)
    · by_cases hcs : cs = []
      · subst hcs
        have hc : c = '\n' := by simpa using h
        subst hc
        simp [splitLines_nl, splitLines]
      · obtain ⟨b, t, rfl⟩ := List.exists_cons_of_ne_nil hcs
        rw [List.getLast?_cons_cons] at h
        have ih' := ih (Or.inr h) ys
        have hne := splitLines_ne_nil (b :: t) (by simp)
        by_cases hc : c = '\n'
        · subst hc
          rw [List.cons_append, splitLines_nl (b :: t ++ ys), ih',
            splitLines_nl (b :: t)]
          rfl
        · rw [List.cons_append, splitLines_not_nl hc (b :: t ++ ys), ih',
            splitLines_not_nl hc (b :: t)]
          cases hsc : splitLines (b :: t) with
          | nil => exact absurd hsc hne
          | cons l ls => simp

theorem splitLines_noNL_concat : ∀ l : List Char, '\n' ∉ l →
    splitLines (l ++ ['\n']) = [l] := by
  intro l
  induction l with
  | nil => intro _; simp [splitLines]
  | cons c cs ih =>
    intro h
    have hc : c ≠ '\n' := fun hh => h (hh ▸ List.mem_cons_self c cs)
    have hcs : '\n' ∉ cs := fun hh => h (List.mem_cons_of_mem c hh)
    have ih' := ih hcs
    rw [List.cons_append, splitLines_cons, if_neg hc, ih']

theorem splitLines_logMessage (ts nickname message f : String)
    (hf : endsWithNewline f.data) (hts : '\n' ∉ ts.data)
    (hn : '\n' ∉ nickname.data) (hm : '\n' ∉ message.data) :
    splitLines (logMessage ts nickname message f true).data =
      splitLines f.data ++ [(ts ++ ": " ++ nickname ++ " - " ++ message).data] := by
  have hdata : (logMessage ts nickname message f true).data =
      f.data ++ ((ts ++ ": " ++ nickname ++ " - " ++ message).data ++ ['\n']) := by
    simp [logMessage, logEntry, String.data_append]
  rw [hdata, splitLines_append f.data hf, splitLines_noNL_concat]
  simp only [String.data_append, List.mem_append]
  rintro ((((h | h) | h) | h) | h)
  · exact hts h
  · exact absurd h (by decide)
  · exact hn h
  · exact absurd h (by decide)
  · exact hm h

theorem sendHistory_logMessage (conn : Conn) (ts nickname message f : String)
    (hf : endsWithNewline f.data) (hts : '\n' ∉ ts.data)
    (hn : '\n' ∉ nickname.data) (hm : '\n' ∉ message.data) :
    sendHistory conn (logMessage ts nickname message f true) =
      sendHistory conn f ++ [(conn, logEntry ts nickname message)] := by
  unfold sendHistory
  rw [splitLines_logMessage ts nickname message f hf hts hn hm, List.map_append]
  have hline : String.mk ((ts ++ ": " ++ nickname ++ " - " ++ message).data) ++ "\n" =
      logEntry ts nickname message :=
    string_data_ext (by simp [String.data_append, logEntry])
  simp only [List.map_cons, List.map_nil]
  rw [hline]

theorem logMessage_endsWithNewline (ts nickname message f : String) :
    endsWithNewline (logMessage ts nickname message f true).data := by
  right
  have hdata : (logMessage ts nickname message f true).data =
      (f.data ++ (ts ++ ": " ++ nickname ++ " - " ++ message).data) ++ ['\n'] := by
    simp [logMessage, logEntry, String.data_append]
  rw [hdata, List.getLast?_concat]

/-- C3 amended: `logMessage` appends exactly one line to the backing log,
formatted `<timestamp>: <nickname> - <message>` — a colon and a space
between the timestamp (which the code renders with `time.RFC1123`) and the
nickname, not a bare space. -/
theorem history_append_one_line (ts nickname message f : String)
    (hf : endsWithNewline f.data) (hts : '\n' ∉ ts.data)
    (hn : '\n' ∉ nickname.data) (hm : '\n' ∉ message.data) :
    splitLines (logMessage ts nickname message f true).data =
      splitLines f.data ++ [(ts ++ ": " ++ nickname ++ " - " ++ message).data] :=
  splitLines_logMessage ts nickname message f hf hts hn hm

/-- Witness for C3's amended theorem at a concrete append. -/
theorem history_append_one_line_witness :
    splitLines (logMessage "Mon, 02 Jan 2006 15:04:05 MST" "Alice" "hi" "" true).data =
      splitLines "".data ++
        [("Mon, 02 Jan 2006 15:04:05 MST" ++ ": " ++ "Alice" ++ " - " ++ "hi").data] :=
  history_append_one_line "Mon, 02 Jan 2006 15:04:05 MST" "Alice" "hi" ""
    (by decide) (by decide) (by decide) (by decide)

theorem sendHistory_appendChatEntries (conn : Conn) :
    ∀ (entries : List (String × String × String)) (f : String),
      endsWithNewline f.data →
      (∀ e ∈ entries, '\n' ∉ e.1.data ∧ '\n' ∉ e.2.1.data ∧ '\n' ∉ e.2.2.data) →
      sendHistory conn (appendChatEntries f entries) =
        sendHistory conn f ++
          entries.map (fun e => (conn, logEntry e.1 e.2.1 e.2.2)) := by
  intro entries
  induction entries with
  | nil => intro f _ _; simp [appendChatEntries]
  | cons e rest ih =>
    intro f hf h
    have he := h e (List.mem_cons_self e rest)
    have hrest : ∀ e' ∈ rest,
        '\n' ∉ e'.1.data ∧ '\n' ∉ e'.2.1.data ∧ '\n' ∉ e'.2.2.data :=
      fun e' he' => h e' (List.mem_cons_of_mem e he')
    have hstep := sendHistory_logMessage conn e.1 e.2.1 e.2.2 f hf he.1 he.2.1 he.2.2
    have hf' := logMessage_endsWithNewline e.1 e.2.1 e.2.2 f
    calc sendHistory conn (appendChatEntries f (e :: rest))
        = sendHistory conn
            (appendChatEntries (logMessage e.1 e.2.1 e.2.2 f true) rest) := rfl
      _ = sendHistory conn (logMessage e.1 e.2.1 e.2.2 f true) ++
            rest.map (fun e => (conn, logEntry e.1 e.2.1 e.2.2)) := ih _ hf' hrest
      _ = (sendHistory conn f ++ [(conn, logEntry e.1 e.2.1 e.2.2)]) ++
            rest.map (fun e => (conn, logEntry e.1 e.2.1 e.2.2)) := by rw [hstep]
      _ = sendHistory conn f ++
            (e :: rest).map (fun e => (conn, logEntry e.1 e.2.1 e.2.2)) := by
          simp [List.append_assoc]

/-- C4: appends followed by a `/history` replay round-trip — the replay
streams the new entries after the pre-existing ones, in append order, and
each replayed entry contains the sender's nickname and the message text. -/
theorem history_roundtrip (conn : Conn) (f : String)
    (entries : List (String × String × String))
    (hf : endsWithNewline f.data)
    (h : ∀ e ∈ entries, '\n' ∉ e.1.data ∧ '\n' ∉ e.2.1.data ∧ '\n' ∉ e.2.2.data) :
    sendHistory conn (appendChatEntries f entries) =
      sendHistory conn f ++ entries.map (fun e => (conn, logEntry e.1 e.2.1 e.2.2))
    ∧ ∀ e ∈ entries,
        (∃ pre post, logEntry e.1 e.2.1 e.2.2 = pre ++ e.2.1 ++ post)
        ∧ (∃ pre post, logEntry e.1 e.2.1 e.2.2 = pre ++ e.2.2 ++ post) := by
  constructor
  · exact sendHistory_appendChatEntries conn entries f hf h
  · intro e _
    constructor
    · refine ⟨e.1 ++ ": ", " - " ++ e.2.2 ++ "\n", ?_⟩
      apply string_data_ext
      simp [logEntry, String.data_append]
    · refine ⟨e.1 ++ ": " ++ e.2.1 ++ " - ", "\n", ?_⟩
      apply string_data_ext
      simp [logEntry, String.data_append]

/-- Witness for C4: two appends replayed after an initially empty log. -/
theorem history_roundtrip_witness :
    (sendHistory 0 (appendChatEntries ""
        [("T1", "Alice", "hello"), ("T2", "Bob", "hi")]) =
      sendHistory 0 "" ++
        [("T1", "Alice", "hello"), ("T2", "Bob", "hi")].map
          (fun e => ((0 : Conn), logEntry e.1 e.2.1 e.2.2))
    ∧ ∀ e ∈ [("T1", "Alice", "hello"), ("T2", "Bob", "hi")],
        (∃ pre post, logEntry e.1 e.2.1 e.2.2 = pre ++ e.2.1 ++ post)
        ∧ (∃ pre post, logEntry e.1 e.2.1 e.2.2 = pre ++ e.2.2 ++ post)) :=
  history_roundtrip 0 "" [("T1", "Alice", "hello"), ("T2", "Bob", "hi")]
    (by decide) (by decide)

theorem deleteTask_taskIDCounter (conn : Conn) (tid : String) (st : ServerState) :
    ((deleteTask conn tid st).1).taskIDCounter = st.taskIDCounter := by
  unfold deleteTask
  by_cases h : st.tasks.any (fun p => p.1 = tid) <;> simp [h]

theorem addTask_taskIDCounter (conn : Conn) (o d : String) (st : ServerState) :
    ((addTask conn o d st).1).taskIDCounter = wrap64 (st.taskIDCounter + 1) := rfl

theorem wrap64_eq_self (n : Int) (hlo : -9223372036854775808 ≤ n)
    (hhi : n ≤ 9223372036854775807) : wrap64 n = n := by
  unfold wrap64
  omega

theorem wrap64_add (a b : Int) : wrap64 (wrap64 a + b) = wrap64 (a + b) := by
  unfold wrap64
  omega

theorem countAdds_cast_add (o d : String) (rest : List TaskOp) :
    (countAdds (TaskOp.add o d :: rest) : Int) = (countAdds rest : Int) + 1 := by
  simp [countAdds]

theorem countAdds_cast_del (tid : String) (rest : List TaskOp) :
    (countAdds (TaskOp.del tid :: rest) : Int) = (countAdds rest : Int) := by
  simp [countAdds]

theorem addTask_counter_no_wrap (o d : String) (rest : List TaskOp)
    (st : ServerState) (hlo : 0 ≤ st.taskIDCounter)
    (hhi : st.taskIDCounter + (countAdds (TaskOp.add o d :: rest) : Int) ≤
      9223372036854775807) :
    ((addTask 0 o d st).1).taskIDCounter = st.taskIDCounter + 1 := by
  rw [countAdds_cast_add] at hhi
  have hnn : (0 : Int) ≤ (countAdds rest : Int) := Int.natCast_nonneg _
  rw [addTask_taskIDCounter]
  apply wrap64_eq_self <;> omega

theorem applyTaskOps_ids_gt : ∀ (ops : List TaskOp) (st : ServerState),
    0 ≤ st.taskIDCounter →
    st.taskIDCounter + (countAdds ops : Int) ≤ 9223372036854775807 →
    ∀ i ∈ (applyTaskOps ops st).2, st.taskIDCounter < i := by
  intro ops
  induction ops with
  | nil => intro st _ _ i hi; simp [applyTaskOps] at hi
  | cons op rest ih =>
    intro st hlo hhi i hi
    cases op with
    | add o d =>
      have hw := addTask_counter_no_wrap o d rest st hlo hhi
      rw [countAdds_cast_add] at hhi
      have hnn : (0 : Int) ≤ (countAdds rest : Int) := Int.natCast_nonneg _
      rcases List.mem_cons.mp hi with rfl | hi'
      · rw [hw]; omega
      · have hlo' : 0 ≤ ((addTask 0 o d st).1).taskIDCounter := by rw [hw]; omega
        have hhi' : ((addTask 0 o d st).1).taskIDCounter +
            (countAdds rest : Int) ≤ 9223372036854775807 := by rw [hw]; omega
        have := ih ((addTask 0 o d st).1) hlo' hhi' i hi'
        rw [hw] at this
        omega
    | del tid =>
      rw [countAdds_cast_del] at hhi
      have hcnt := deleteTask_taskIDCounter 0 tid st
      have hlo' : 0 ≤ ((deleteTask 0 tid st).1).taskIDCounter := by
        rw [hcnt]; exact hlo
      have hhi' : ((deleteTask 0 tid st).1).taskIDCounter +
          (countAdds rest : Int) ≤ 9223372036854775807 := by
        rw [hcnt]; exact hhi
      have := ih ((deleteTask 0 tid st).1) hlo' hhi' i hi
      rwa [hcnt] at this

theorem applyTaskOps_chain : ∀ (ops : List TaskOp) (st : ServerState),
    0 ≤ st.taskIDCounter →
    st.taskIDCounter + (countAdds ops : Int) ≤ 9223372036854775807 →
    List.Chain' (· < ·) (applyTaskOps ops st).2 := by
  intro ops
  induction ops with
  | nil => intro st _ _; simp [applyTaskOps]
  | cons op rest ih =>
    intro st hlo hhi
    cases op with
    | add o d =>
      have hw := addTask_counter_no_wrap o d rest st hlo hhi
      rw [countAdds_cast_add] at hhi
      have hnn : (0 : Int) ≤ (countAdds rest : Int) := Int.natCast_nonneg _
      have hlo' : 0 ≤ ((addTask 0 o d st).1).taskIDCounter := by rw [hw]; omega
      have hhi' : ((addTask 0 o d st).1).taskIDCounter +
          (countAdds rest : Int) ≤ 9223372036854775807 := by rw [hw]; omega
      rw [show (applyTaskOps (TaskOp.add o d :: rest) st).2 =
          ((addTask 0 o d st).1).taskIDCounter ::
            (applyTaskOps rest ((addTask 0 o d st).1)).2 from rfl]
      rw [List.chain'_cons']
      refine ⟨?_, ih _ hlo' hhi'⟩
      intro y hy
      exact applyTaskOps_ids_gt rest ((addTask 0 o d st).1) hlo' hhi' y
        (List.mem_of_mem_head? hy)
    | del tid =>
      rw [countAdds_cast_del] at hhi
      have hcnt := deleteTask_taskIDCounter 0 tid st
      have hlo' : 0 ≤ ((deleteTask 0 tid st).1).taskIDCounter := by
        rw [hcnt]; exact hlo
      have hhi' : ((deleteTask 0 tid st).1).taskIDCounter +
          (countAdds rest : Int) ≤ 9223372036854775807 := by
        rw [hcnt]; exact hhi
      exact ih _ hlo' hhi'

theorem applyTaskOps_replicate_ids (o d : String) :
    ∀ (k : Nat) (st : ServerState),
      (applyTaskOps (List.replicate k (TaskOp.add o d)) st).2 =
        (List.range k).map (fun i : Nat => wrap64 (st.taskIDCounter + (i : Int) + 1)) := by
  intro k
  induction k with
  | zero => intro st; simp [applyTaskOps]
  | succ n ih =>
    intro st
    rw [List.replicate_succ]
    rw [show (applyTaskOps (TaskOp.add o d :: List.replicate n (TaskOp.add o d)) st).2 =
        ((addTask 0 o d st).1).taskIDCounter ::
          (applyTaskOps (List.replicate n (TaskOp.add o d)) ((addTask 0 o d st).1)).2
        from rfl]
    rw [ih ((addTask 0 o d st).1), addTask_taskIDCounter,
      List.range_succ_eq_map, List.map_cons, List.map_map]
    congr 1
    · show wrap64 (st.taskIDCounter + 1) =
        wrap64 (st.taskIDCounter + ((0 : Nat) : Int) + 1)
      congr 1
      push_cast
      ring
    · refine List.map_congr_left ?_
      intro i _
      simp only [Function.comp]
      rw [show wrap64 (st.taskIDCounter + 1) + (i : Int) + 1 =
          wrap64 (st.taskIDCounter + 1) + ((i : Int) + 1) from by ring]
      rw [wrap64_add]
      congr 1
      push_cast
      ring

/-- C5 counterexample: `taskIDCounter` is a 64-bit Go `int`, so after `2^63`
consecutive `/task add` operations from the boot state the increment
overflows and wraps to `-2^63` — the sequence of assigned ids is not
strictly increasing, refuting the claim over *every* sequence. -/
theorem task_id_overflow_counterexample :
    ¬ List.Pairwise (· < ·)
      (applyTaskOps
        (List.replicate 9223372036854775808 (TaskOp.add "Alice" "fix bug"))
        initialState).2 := by
  intro hpw
  rw [applyTaskOps_replicate_ids "Alice" "fix bug" 9223372036854775808
    initialState] at hpw
  rw [List.pairwise_map, List.pairwise_iff_get] at hpw
  have hlen : (List.range 9223372036854775808).length = 9223372036854775808 :=
    List.length_range _
  have hi : (9223372036854775806 : Nat) < (List.range 9223372036854775808).length := by
    rw [hlen]; decide
  have hj : (9223372036854775807 : Nat) < (List.range 9223372036854775808).length := by
    rw [hlen]; decide
  have h := hpw ⟨9223372036854775806, hi⟩ ⟨9223372036854775807, hj⟩
    (Fin.mk_lt_mk.mpr (by decide))
  rw [List.get_range, List.get_range] at h
  exact absurd h (by decide)

/-- C5 amended: over any sequence of `/task add` and `/task delete`
operations during which the 64-bit counter does not overflow (the counter is
non-negative and the number of adds keeps it at most `2^63 - 1`; it starts
at 0), the assigned ids are strictly increasing, pairwise distinct, and
never reused — each is strictly above the counter at the start and deletes
never lower it.  With enough adds to overflow, the counter wraps and ids
repeat (see the counterexample). -/
theorem task_id_monotonic (ops : List TaskOp) (st : ServerState)
    (hlo : 0 ≤ st.taskIDCounter)
    (hhi : st.taskIDCounter + (countAdds ops : Int) ≤ 9223372036854775807) :
    List.Pairwise (· < ·) (applyTaskOps ops st).2
    ∧ ((applyTaskOps ops st).2).Nodup
    ∧ ∀ i ∈ (applyTaskOps ops st).2, st.taskIDCounter < i := by
  have hpw : List.Pairwise (· < ·) (applyTaskOps ops st).2 :=
    List.chain'_iff_pairwise.mp (applyTaskOps_chain ops st hlo hhi)
  exact ⟨hpw, hpw.imp ne_of_lt, applyTaskOps_ids_gt ops st hlo hhi⟩

/-- Witness for C5's amended theorem: adds and a delete from the boot state. -/
theorem task_id_monotonic_witness :
    List.Pairwise (· < ·)
      (applyTaskOps [TaskOp.add "Alice" "fix bug", TaskOp.add "Bob" "write docs",
        TaskOp.del "1", TaskOp.add "Alice" "ship it"] initialState).2
    ∧ ((applyTaskOps [TaskOp.add "Alice" "fix bug", TaskOp.add "Bob" "write docs",
        TaskOp.del "1", TaskOp.add "Alice" "ship it"] initialState).2).Nodup
    ∧ ∀ i ∈ (applyTaskOps [TaskOp.add "Alice" "fix bug",
        TaskOp.add "Bob" "write docs", TaskOp.del "1",
        TaskOp.add "Alice" "ship it"] initialState).2,
        initialState.taskIDCounter < i :=
  task_id_monotonic
    [TaskOp.add "Alice" "fix bug", TaskOp.add "Bob" "write docs",
     TaskOp.del "1", TaskOp.add "Alice" "ship it"] initialState
    (by decide) (by decide)

theorem dispatch_quit (m : String) (h : strStartsWith "/quit" m = true) :
    dispatchedCmd m = Cmd.quit := by
  simp [dispatchedCmd, h]

theorem dispatch_history (m : String) (h : strStartsWith "/history" m = true) :
    dispatchedCmd m = Cmd.history := by
  have h1 : strStartsWith "/quit" m = false :=
    not_startsWith_of_incomp "/history" "/quit" m h (by decide) (by decide)
  simp [dispatchedCmd, h, h1]

theorem dispatch_nickname (m : String) (h : strStartsWith "/nickname" m = true) :
    dispatchedCmd m = Cmd.nickname := by
  have h1 : strStartsWith "/quit" m = false :=
    not_startsWith_of_incomp "/nickname" "/quit" m h (by decide) (by decide)
  have h2 : strStartsWith "/history" m = false :=
    not_startsWith_of_incomp "/nickname" "/history" m h (by decide) (by decide)
  simp [dispatchedCmd, h, h1, h2]

theorem dispatch_users (m : String) (h : strStartsWith "/users" m = true) :
    dispatchedCmd m = Cmd.users := by
  have h1 : strStartsWith "/quit" m = false :=
    not_startsWith_of_incomp "/users" "/quit" m h (by decide) (by decide)
  have h2 : strStartsWith "/history" m = false :=
    not_startsWith_of_incomp "/users" "/history" m h (by decide) (by decide)
  have h3 : strStartsWith "/nickname" m = false :=
    not_startsWith_of_incomp "/users" "/nickname" m h (by decide) (by decide)
  simp [dispatchedCmd, h, h1, h2, h3]

theorem dispatch_taskAdd (m : String) (h : strStartsWith "/task add" m = true) :
    dispatchedCmd m = Cmd.taskAdd := by
  have h1 : strStartsWith "/quit" m = false :=
    not_startsWith_of_incomp "/task add" "/quit" m h (by decide) (by decide)
  have h2 : strStartsWith "/history" m = false :=
    not_startsWith_of_incomp "/task add" "/history" m h (by decide) (by decide)
  have h3 : strStartsWith "/nickname" m = false :=
    not_startsWith_of_incomp "/task add" "/nickname" m h (by decide) (by decide)
  have h4 : strStartsWith "/users" m = false :=
    not_startsWith_of_incomp "/task add" "/users" m h (by decide) (by decide)
  simp [dispatchedCmd, h, h1, h2, h3, h4]

theorem dispatch_taskList (m : String) (h : strStartsWith "/task list" m = true) :
    dispatchedCmd m = Cmd.taskList := by
  have h1 : strStartsWith "/quit" m = false :=
    not_startsWith_of_incomp "/task list" "/quit" m h (by decide) (by decide)
  have h2 : strStartsWith "/history" m = false :=
    not_startsWith_of_incomp "/task list" "/history" m h (by decide) (by decide)
  have h3 : strStartsWith "/nickname" m = false :=
    not_startsWith_of_incomp "/task list" "/nickname" m h (by decide) (by decide)
  have h4 : strStartsWith "/users" m = false :=
    not_startsWith_of_incomp "/task list" "/users" m h (by decide) (by decide)
  have h5 : strStartsWith "/task add" m = false :=
    not_startsWith_of_incomp "/task list" "/task add" m h (by decide) (by decide)
  simp [dispatchedCmd, h, h1, h2, h3, h4, h5]

theorem dispatch_taskDelete (m : String)
    (h : strStartsWith "/task delete" m = true) :
    dispatchedCmd m = Cmd.taskDelete := by
  have h1 : strStartsWith "/quit" m = false :=
    not_startsWith_of_incomp "/task delete" "/quit" m h (by decide) (by decide)
  have h2 : strStartsWith "/history" m = false :=
    not_startsWith_of_incomp "/task delete" "/history" m h (by decide) (by decide)
  have h3 : strStartsWith "/nickname" m = false :=
    not_startsWith_of_incomp "/task delete" "/nickname" m h (by decide) (by decide)
  have h4 : strStartsWith "/users" m = false :=
    not_startsWith_of_incomp "/task delete" "/users" m h (by decide) (by decide)
  have h5 : strStartsWith "/task add" m = false :=
    not_startsWith_of_incomp "/task delete" "/task add" m h (by decide) (by decide)
  have h6 : strStartsWith "/task list" m = false :=
    not_startsWith_of_incomp "/task delete" "/task list" m h (by decide) (by decide)
  simp [dispatchedCmd, h, h1, h2, h3, h4, h5, h6]

theorem isChat_all_false (m : String) (h : isChatMessage m = true) :
    strStartsWith "/quit" m = false ∧ strStartsWith "/history" m = false ∧
    strStartsWith "/nickname" m = false ∧ strStartsWith "/users" m = false ∧
    strStartsWith "/task add" m = false ∧ strStartsWith "/task list" m = false ∧
    strStartsWith "/task delete" m = false := by
  simp [isChatMessage, cmdPrefixes] at h
  simp [h]

theorem dispatch_chat (m : String) (h : isChatMessage m = true) :
    dispatchedCmd m = Cmd.chat := by
  obtain ⟨h1, h2, h3, h4, h5, h6, h7⟩ := isChat_all_false m h
  simp [dispatchedCmd, h1, h2, h3, h4, h5, h6, h7]

theorem splitNChars_two (cs : List Char) : splitNChars 2 cs =
    match breakSpace cs with
    | none => [cs]
    | some (a, b) => [a, b] := rfl

theorem goSplitNSpace_two_len (m : String) :
    (goSplitNSpace m 2).length = 1 ∨ (goSplitNSpace m 2).length = 2 := by
  unfold goSplitNSpace
  rw [splitNChars_two m.data]
  cases breakSpace m.data with
  | none => left; rfl
  | some ab => obtain ⟨a, b⟩ := ab; right; rfl

theorem goSplitNSpace_three_len (m : String) :
    (goSplitNSpace m 3).length = 1 ∨ (goSplitNSpace m 3).length = 2 ∨
      (goSplitNSpace m 3).length = 3 := by
  unfold goSplitNSpace
  rw [show splitNChars 3 m.data =
    (match breakSpace m.data with
      | none => [m.data]
      | some (a, b) => a :: splitNChars 2 b) from rfl]
  cases breakSpace m.data with
  | none => left; rfl
  | some ab =>
    obtain ⟨a, b⟩ := ab
    have hred : (match some (a, b) with
        | none => [m.data]
        | some (a2, b2) => a2 :: splitNChars 2 b2) = a :: splitNChars 2 b := rfl
    rw [hred, splitNChars_two b]
    cases breakSpace b with
    | none => right; left; rfl
    | some cd => obtain ⟨c, d⟩ := cd; right; right; rfl

/-- C8: a trimmed line that starts with a recognized command prefix is
dispatched (case-sensitively) as that prefix's command and is never treated
as a chat message, even with extra text after the prefix. -/
theorem prefix_command_dispatch (m p : String) (hp : p ∈ cmdPrefixes)
    (h : strStartsWith p m = true) :
    dispatchedCmd m = cmdOfPrefix p ∧ dispatchedCmd m ≠ Cmd.chat := by
  simp only [cmdPrefixes, List.mem_cons, List.not_mem_nil, or_false] at hp
  rcases hp with rfl | rfl | rfl | rfl | rfl | rfl | rfl
  · rw [dispatch_quit m h]; exact ⟨by decide, by decide⟩
  · rw [dispatch_history m h]; exact ⟨by decide, by decide⟩
  · rw [dispatch_nickname m h]; exact ⟨by decide, by decide⟩
  · rw [dispatch_users m h]; exact ⟨by decide, by decide⟩
  · rw [dispatch_taskAdd m h]; exact ⟨by decide, by decide⟩
  · rw [dispatch_taskList m h]; exact ⟨by decide, by decide⟩
  · rw [dispatch_taskDelete m h]; exact ⟨by decide, by decide⟩

/-- Witness for C8: the chat-looking line "/users are great" is dispatched
as `/users`. -/
theorem prefix_command_dispatch_witness :
    dispatchedCmd "/users are great" = cmdOfPrefix "/users"
    ∧ dispatchedCmd "/users are great" ≠ Cmd.chat :=
  prefix_command_dispatch "/users are great" "/users" (by decide) (by decide)

/-- C7: a line with a recognized prefix but the wrong argument count is
silently ignored — no state change, no reply, no close, nickname kept. -/
theorem malformed_command_ignored (conn : Conn) (nickname m ts : String)
    (writeOk : Bool) (st : ServerState) (h : malformedCommand m = true) :
    handleCommands conn nickname m ts writeOk st =
      ⟨st, [], nickname, false⟩ := by
  unfold malformedCommand at h
  simp only [Bool.or_eq_true, Bool.and_eq_true, bne_iff_ne, ne_eq] at h
  rcases h with (⟨hpre, hlen⟩ | ⟨hpre, hlen⟩) | ⟨hpre, hlen⟩
  · have hd := dispatch_nickname m hpre
    rcases goSplitNSpace_two_len m with h1 | h2
    · obtain ⟨x, hx⟩ := List.length_eq_one.mp h1
      unfold handleCommands
      rw [hd, hx]
    · exact absurd h2 hlen
  · have hd := dispatch_taskAdd m hpre
    rcases goSplitNSpace_three_len m with h1 | h2 | h3
    · obtain ⟨x, hx⟩ := List.length_eq_one.mp h1
      unfold handleCommands
      rw [hd, hx]
    · obtain ⟨x, y, hx⟩ := List.length_eq_two.mp h2
      unfold handleCommands
      rw [hd, hx]
    · exact absurd h3 hlen
  · have hd := dispatch_taskDelete m hpre
    rcases goSplitNSpace_three_len m with h1 | h2 | h3
    · obtain ⟨x, hx⟩ := List.length_eq_one.mp h1
      unfold handleCommands
      rw [hd, hx]
    · obtain ⟨x, y, hx⟩ := List.length_eq_two.mp h2
      unfold handleCommands
      rw [hd, hx]
    · exact absurd h3 hlen

/-- Witness for C7: `/nickname` with no argument is a no-op with no reply. -/
theorem malformed_command_ignored_witness :
    handleCommands 0 "Anonymous" "/nickname" "TS" true
        ⟨[(0, "Anonymous")], [(0, "a:1")], [], 0, ""⟩ =
      ⟨⟨[(0, "Anonymous")], [(0, "a:1")], [], 0, ""⟩, [], "Anonymous", false⟩ :=
  malformed_command_ignored 0 "Anonymous" "/nickname" "TS" true
    ⟨[(0, "Anonymous")], [(0, "a:1")], [], 0, ""⟩ (by decide)

/-- C1: a chat message (trimmed line matching no command prefix) from a
registered sender is broadcast, formatted, to exactly the registered
connections other than the sender: every such connection receives it, every
write goes to a registered non-sender connection, the sender gets nothing. -/
theorem broadcast_exclusion (conn : Conn) (nickname m ts : String)
    (writeOk : Bool) (st : ServerState)
    (hchat : isChatMessage m = true) (hreg : registered conn st.clients = true) :
    (∀ c, registered c st.clients = true → c ≠ conn →
        (c, chatLine nickname m) ∈
          (handleCommands conn nickname m ts writeOk st).writes)
    ∧ (∀ c s, (c, s) ∈ (handleCommands conn nickname m ts writeOk st).writes →
        registered c st.clients = true ∧ c ≠ conn) := by
  have hw : (handleCommands conn nickname m ts writeOk st).writes =
      broadcastMessage (chatLine nickname m) conn st.clients := by
    unfold handleCommands
    rw [dispatch_chat m hchat]
  constructor
  · intro c hc hne
    rw [hw]
    unfold broadcastMessage
    rw [List.mem_map]
    rw [registered, List.any_eq_true] at hc
    obtain ⟨p, hpmem, hpc⟩ := hc
    have hpc' : p.1 = c := by simpa using hpc
    refine ⟨p, List.mem_filter.mpr ⟨hpmem, ?_⟩, ?_⟩
    · simp [hpc', hne]
    · rw [hpc']
  · intro c s hmem
    rw [hw] at hmem
    unfold broadcastMessage at hmem
    rw [List.mem_map] at hmem
    obtain ⟨p, hpf, heq⟩ := hmem
    rw [List.mem_filter] at hpf
    obtain ⟨hpmem, hpne⟩ := hpf
    have h1 : p.1 = c := congrArg Prod.fst heq
    constructor
    · rw [registered, List.any_eq_true]
      exact ⟨p, hpmem, by simp [h1]⟩
    · rw [← h1]
      simpa using hpne

/-- Witness for C1: "hello" from Alice in a two-client registry. -/
theorem broadcast_exclusion_witness :
    (∀ c, registered c [(0, "Alice"), (1, "Bob")] = true → c ≠ 0 →
        (c, chatLine "Alice" "hello") ∈
          (handleCommands 0 "Alice" "hello" "TS" true
            ⟨[(0, "Alice"), (1, "Bob")], [], [], 0, ""⟩).writes)
    ∧ (∀ c s, (c, s) ∈ (handleCommands 0 "Alice" "hello" "TS" true
          ⟨[(0, "Alice"), (1, "Bob")], [], [], 0, ""⟩).writes →
        registered c [(0, "Alice"), (1, "Bob")] = true ∧ c ≠ 0) :=
  broadcast_exclusion 0 "Alice" "hello" "TS" true
    ⟨[(0, "Alice"), (1, "Bob")], [], [], 0, ""⟩ (by decide) (by decide)

theorem head_dropWhile_false (p : Char → Bool) :
    ∀ (l : List Char) (a : Char), (l.dropWhile p).head? = some a → p a = false := by
  intro l
  induction l with
  | nil => intro a h; simp [List.dropWhile] at h
  | cons c cs ih =>
    intro a h
    by_cases hc : p c
    · rw [List.dropWhile_cons, if_pos hc] at h
      exact ih a h
    · rw [List.dropWhile_cons, if_neg hc] at h
      simp only [List.head?_cons, Option.some.injEq] at h
      rw [← h]
      exact Bool.not_eq_true (p c) ▸ by simpa using hc

theorem goTrimSpace_getLast_not_space (s : String) (c : Char)
    (h : (goTrimSpace s).data.getLast? = some c) : goIsSpace c = false := by
  have hdata : (goTrimSpace s).data =
      ((s.data.dropWhile goIsSpace).reverse.dropWhile goIsSpace).reverse := rfl
  rw [hdata, List.getLast?_reverse] at h
  exact head_dropWhile_false goIsSpace _ c h

theorem breakSpace_eq : ∀ (cs a b : List Char),
    breakSpace cs = some (a, b) → cs = a ++ ' ' :: b := by
  intro cs
  induction cs with
  | nil => intro a b h; simp [breakSpace] at h
  | cons c t ih =>
    intro a b h
    unfold breakSpace at h
    by_cases hc : c = ' '
    · rw [if_pos hc] at h
      simp only [Option.some.injEq, Prod.mk.injEq] at h
      rw [← h.1, ← h.2, hc]
      rfl
    · rw [if_neg hc] at h
      cases hbt : breakSpace t with
      | none => rw [hbt] at h; simp at h
      | some ab =>
        obtain ⟨a2, b2⟩ := ab
        rw [hbt] at h
        simp only [Option.some.injEq, Prod.mk.injEq] at h
        rw [← h.1, ← h.2]
        rw [ih a2 b2 hbt]
        rfl

theorem goSplitNSpace_two_eq (m x y : String)
    (h : goSplitNSpace m 2 = [x, y]) : m.data = x.data ++ ' ' :: y.data := by
  unfold goSplitNSpace at h
  rw [splitNChars_two m.data] at h
  cases hbs : breakSpace m.data with
  | none =>
    rw [hbs] at h
    simp at h
  | some ab =>
    obtain ⟨a, b⟩ := ab
    rw [hbs] at h
    simp only [List.map_cons, List.map_nil, List.cons.injEq, and_true] at h
    obtain ⟨hx, hy⟩ := h
    have hxa : x.data = a := by rw [← hx]
    have hyb : y.data = b := by rw [← hy]
    rw [hxa, hyb]
    exact breakSpace_eq m.data a b hbs

theorem trimmed_split2_arg_ne_empty (raw x y : String)
    (h : goSplitNSpace (goTrimSpace raw) 2 = [x, y]) : y ≠ "" := by
  intro hy
  subst hy
  have hd := goSplitNSpace_two_eq (goTrimSpace raw) x "" h
  have hlast : (goTrimSpace raw).data.getLast? = some ' ' := by
    rw [hd]
    exact List.getLast?_concat x.data
  have := goTrimSpace_getLast_not_space raw ' ' hlast
  exact absurd this (by decide)

theorem deleteTask_clients (conn : Conn) (tid : String) (st : ServerState) :
    ((deleteTask conn tid st).1).clients = st.clients := by
  unfold deleteTask
  by_cases h : st.tasks.any (fun p => p.1 = tid) <;> simp [h]

theorem handleCommands_nick_inv (conn : Conn) (nickname raw ts : String)
    (writeOk : Bool) (st : ServerState) (hn : nickname ≠ "")
    (hl : lookupAssoc conn st.clients = some nickname) :
    (handleCommands conn nickname (goTrimSpace raw) ts writeOk st).nick ≠ ""
    ∧ lookupAssoc conn
        (handleCommands conn nickname (goTrimSpace raw) ts writeOk st).state.clients
      = some (handleCommands conn nickname (goTrimSpace raw) ts writeOk st).nick := by
  unfold handleCommands
  cases hd : dispatchedCmd (goTrimSpace raw) with
  | quit => exact ⟨hn, hl⟩
  | history => exact ⟨hn, hl⟩
  | users => exact ⟨hn, hl⟩
  | taskList => exact ⟨hn, hl⟩
  | chat => exact ⟨hn, hl⟩
  | nickname =>
    cases hsp : goSplitNSpace (goTrimSpace raw) 2 with
    | nil => exact ⟨hn, hl⟩
    | cons x t =>
      cases t with
      | nil => exact ⟨hn, hl⟩
      | cons y t2 =>
        cases t2 with
        | nil =>
          refine ⟨trimmed_split2_arg_ne_empty raw x y hsp, ?_⟩
          exact lookupAssoc_setAssoc_self conn y st.clients
        | cons z t3 => exact ⟨hn, hl⟩
  | taskAdd =>
    cases hsp : goSplitNSpace (goTrimSpace raw) 3 with
    | nil => exact ⟨hn, hl⟩
    | cons x t =>
      cases t with
      | nil => exact ⟨hn, hl⟩
      | cons y t2 =>
        cases t2 with
        | nil => exact ⟨hn, hl⟩
        | cons z t3 =>
          cases t3 with
          | nil => exact ⟨hn, hl⟩
          | cons w t4 => exact ⟨hn, hl⟩
  | taskDelete =>
    cases hsp : goSplitNSpace (goTrimSpace raw) 3 with
    | nil => exact ⟨hn, hl⟩
    | cons x t =>
      cases t with
      | nil => exact ⟨hn, hl⟩
      | cons y t2 =>
        cases t2 with
        | nil => exact ⟨hn, hl⟩
        | cons z t3 =>
          cases t3 with
          | nil =>
            refine ⟨hn, ?_⟩
            show lookupAssoc conn ((deleteTask conn z st).1).clients = some nickname
            rw [deleteTask_clients]
            exact hl
          | cons w t4 => exact ⟨hn, hl⟩

theorem runSession_preserves (conn : Conn) :
    ∀ (inputs : List LineInput) (nickname : String) (st : ServerState),
      nickname ≠ "" → lookupAssoc conn st.clients = some nickname →
      (runSession conn inputs nickname st).1 ≠ ""
      ∧ lookupAssoc conn (runSession conn inputs nickname st).2.clients
          = some (runSession conn inputs nickname st).1 := by
  intro inputs
  induction inputs with
  | nil => intro nickname st hn hl; exact ⟨hn, hl⟩
  | cons i rest ih =>
    intro nickname st hn hl
    obtain ⟨hn', hl'⟩ :=
      handleCommands_nick_inv conn nickname i.raw i.ts i.writeOk st hn hl
    unfold runSession
    by_cases hc :
        (handleCommands conn nickname (goTrimSpace i.raw) i.ts i.writeOk st).closed
    · rw [if_pos hc]
      exact ⟨hn', hl'⟩
    · rw [if_neg hc]
      exact ih _ _ hn' hl'

/-- C6: starting from registration (nickname "Anonymous"), after any
sequence of dispatched input lines the session's registry nickname is a
non-empty string equal to the handler's local nickname — even though
`changeNickname` itself installs whatever it is given, the empty string
included. -/
theorem nickname_nonempty_invariant (conn : Conn) (remote : String)
    (inputs : List LineInput) (st0 : ServerState) :
    ((runSession conn inputs (registerSession conn remote st0).1
        (registerSession conn remote st0).2).1 ≠ ""
      ∧ lookupAssoc conn
          (runSession conn inputs (registerSession conn remote st0).1
            (registerSession conn remote st0).2).2.clients
        = some (runSession conn inputs (registerSession conn remote st0).1
            (registerSession conn remote st0).2).1)
    ∧ ∀ (nickname : String) (st : ServerState),
        (changeNickname conn nickname "" st).state.clients =
          setAssoc conn "" st.clients := by
  constructor
  · exact runSession_preserves conn inputs "Anonymous"
      (registerSession conn remote st0).2 (by decide)
      (lookupAssoc_setAssoc_self conn "Anonymous" st0.clients)
  · intro nickname st
    rfl

end ChatServer
